import Mathlib

set_option linter.unusedVariables false

/-!
Shallow embedding of the versionix repository state engine
(src/versionix/vsx.py and src/versionix/branches.py).

The on-disk repository (.vsx directory plus the working tree) is modelled as
the structure `Repo`; each file of the control directory becomes one field.
Python dictionaries keyed by strings become association lists with a
replace-or-append update (`aset`) and a first-match lookup (`alookup`).
Operations that can raise become functions into `Except VsxErr _` (early
`print`-and-`return` rejections, which the spec names as errors, are also
modelled as error values; in both cases the source returns before writing
any repository file, so the caller's state is unchanged).  `merge` writes
conflict markers into the working tree before reporting conflicts, so it
returns the resulting repository alongside its outcome.  The content digest
(`hashlib.sha256` of the file bytes) and the ignore predicate (`.vsxignore`
matching) are external inputs of `add` and are passed as function
parameters.  Commit ids are derived from the message and the wall-clock
time in the source; the freshly generated id is passed as an explicit
argument to `commit` and `merge`.
-/

/-- One entry of a commit's `files` manifest: `{path, operation, hash?}`
(`hash` is absent for delete entries). -/
structure FileChange where
  path : String
  operation : String
  hash : Option String
deriving DecidableEq

/-- The `parent` field of a commit record: a single (possibly null) parent
id as written by `commit`, or the two-element list
`[target_head, source_head]` written by `merge`. -/
inductive ParentRef where
  | one (p : Option String)
  | two (tgt src : Option String)
deriving DecidableEq

/-- One record of the append-only `commits` log. -/
structure Commit where
  id : String
  message : String
  files : List FileChange
  parent : ParentRef
deriving DecidableEq

/-- One branch-registry record (one file under `.vsx/branches/`); the
`created_at` timestamp plays no role in the logic and is omitted. -/
structure Branch where
  name : String
  base_commit : Option String
  head : Option String
  commit_history : List String
  parent_branch : Option String
deriving DecidableEq

/-- One record of the `stage` file: `{path, operation, hash?}`. -/
structure StagedFile where
  path : String
  operation : String
  hash : Option String
deriving DecidableEq

/-- The whole persisted repository state plus the working directory. -/
structure Repo where
  head_ref : String
  commits : List Commit
  branches : List (String × Branch)
  stage : List StagedFile
  objects : List (String × String)
  workdir : List (String × String)
deriving DecidableEq

/-- First-match lookup in an association list (dictionary read / keyed file
read). -/
def alookup {α : Type} (l : List (String × α)) (k : String) : Option α :=
  (l.find? (fun p => p.1 == k)).map (fun p => p.2)

/-- Replace the first binding of `k`, or append one (dictionary write /
keyed file write). -/
def aset {α : Type} : List (String × α) → String → α → List (String × α)
  | [], k, v => [(k, v)]
  | (k', v') :: rest, k, v =>
      if k' = k then (k, v) :: rest else (k', v') :: aset rest k v

/-- A user (or external) write of a working-tree file; not a repository
operation, used only to build concrete scenarios. -/
def writeWorkFile (r : Repo) (p content : String) : Repo :=
  { r with workdir := aset r.workdir p content }

/-- Error taxonomy of the engine (both raised exceptions and the
print-and-return rejections the spec names as errors). -/
inductive VsxErr where
  | valueError
  | fileNotFound
  | ignoredPath
  | notTracked
  | nothingToCommit
  | unknownBranch
  | danglingHead
  | keyError
  | noCommits
  | fuelOut
deriving DecidableEq

/-- `next((c for c in all_commits if c['id'] == cid), None)`: resolve an
optional commit id against the commit log (a null id never matches). -/
def resolveCommit (cs : List Commit) (cid : Option String) : Option Commit :=
  match cid with
  | none => none
  | some i => cs.find? (fun c => c.id == i)

/-- State of a freshly initialized repository (`Versionix.__init__` on an
empty directory): HEAD = "main", empty commit log, empty stage, and a
single `main` branch record with null base and head. -/
def initRepo : Repo :=
  { head_ref := "main"
    commits := []
    branches := [("main",
      { name := "main", base_commit := none, head := none
        commit_history := [], parent_branch := none })]
    stage := []
    objects := []
    workdir := [] }

/-- `Versionix.add`: stage a file for commit (operations add/modify/delete).
`hashFn` is the content digest, `isIgnored` the `.vsxignore` predicate. -/
def add (hashFn : String → String) (isIgnored : String → Bool)
    (r : Repo) (filepath operation : String) : Except VsxErr Repo :=
  if operation ∉ (["add", "modify", "delete"] : List String) then
    .error .valueError
  else if operation ≠ "delete" ∧ alookup r.workdir filepath = none then
    .error .fileNotFound
  else if operation ≠ "delete" ∧ isIgnored filepath then
    .error .ignoredPath
  else
    let staged := r.stage.filter (fun f => f.path != filepath)
    if operation = "add" ∨ operation = "modify" then
      match alookup r.workdir filepath with
      | none => .error .fileNotFound
      | some content =>
          let h := hashFn content
          .ok { r with
                  objects := aset r.objects h content
                  stage := staged ++
                    [{ path := filepath, operation := operation, hash := some h }] }
    else
      match alookup r.branches r.head_ref with
      | none => .error .fileNotFound
      | some meta =>
          match resolveCommit r.commits meta.head with
          | some head_commit =>
              if head_commit.files.any (fun f => f.path == filepath) then
                .ok { r with stage := staged ++
                        [{ path := filepath, operation := "delete", hash := none }] }
              else
                .error .notTracked
          | none =>
              .ok { r with stage := staged ++
                      [{ path := filepath, operation := "delete", hash := none }] }

/-- The `commit_files` loop of `Versionix.commit`: build manifest entries
from the staged records, carrying `hash` only for non-delete entries
(a non-delete staged record with no hash raises `KeyError`). -/
def mkCommitFiles : List StagedFile → Except VsxErr (List FileChange)
  | [] => .ok []
  | f :: rest =>
      if f.operation ≠ "delete" then
        match f.hash with
        | none => .error .keyError
        | some h =>
            (mkCommitFiles rest).map
              (fun l => { path := f.path, operation := f.operation, hash := some h } :: l)
      else
        (mkCommitFiles rest).map
          (fun l => { path := f.path, operation := f.operation, hash := none } :: l)

/-- `Versionix.commit`: commit the staged changes on the current branch.
`newId` is the externally generated commit id (sha256 of message+time). -/
def commit (newId : String) (r : Repo) (message : String) : Except VsxErr Repo :=
  if r.stage = [] then .error .nothingToCommit
  else
    match alookup r.branches r.head_ref with
    | none => .error .fileNotFound
    | some meta =>
        match mkCommitFiles r.stage with
        | .error e => .error e
        | .ok cfiles =>
            let c : Commit :=
              { id := newId, message := message, files := cfiles
                parent := .one meta.head }
            .ok { r with
                    commits := r.commits ++ [c]
                    branches := aset r.branches r.head_ref
                      ({ meta with head := some newId
                                   commit_history := meta.commit_history ++ [newId] })
                    stage := [] }

/-- `BranchManager.create_branch`: create a branch whose `base_commit` and
`head` are the base branch's current head (base defaults to the current
branch). -/
def create_branch (r : Repo) (branch_name : String) (base_branch : Option String) :
    Except VsxErr Repo :=
  let base := base_branch.getD r.head_ref
  match alookup r.branches base with
  | none => .error .unknownBranch
  | some baseMeta =>
      let newMeta : Branch :=
        { name := branch_name
          base_commit := baseMeta.head
          head := baseMeta.head
          commit_history := []
          parent_branch := some base }
      .ok { r with branches := aset r.branches branch_name newMeta }

/-- `BranchManager._clear_tracked_files`: remove from the working directory
every path that appears in the files list of any commit ever recorded. -/
def clear_tracked_files (r : Repo) : List (String × String) :=
  let tracked := (r.commits.map (fun c => c.files.map (fun f => f.path))).flatten
  r.workdir.filter (fun p => !(tracked.contains p.1))

/-- `_restore_single_commit_files`: copy each manifest entry's blob from the
object store to its working-tree path (a manifest entry with no hash raises
`KeyError`; a missing blob raises `FileNotFoundError` from `shutil.copy`). -/
def restore_single_commit_files (objects : List (String × String)) :
    List (String × String) → List FileChange → Except VsxErr (List (String × String))
  | wd, [] => .ok wd
  | wd, f :: rest =>
      match f.hash with
      | none => .error .keyError
      | some h =>
          match alookup objects h with
          | none => .error .fileNotFound
          | some content => restore_single_commit_files objects (aset wd f.path content) rest

/-- The per-branch loop of `restore_branch_commits`: replay every commit of
a `commit_history` in order, skipping already-processed commit ids and
ids that resolve to no commit. -/
def restore_history (r : Repo) :
    List String → List (String × String) → List String →
    Except VsxErr (List String × List (String × String))
  | processed, wd, [] => .ok (processed, wd)
  | processed, wd, cid :: rest =>
      if processed.contains cid then restore_history r processed wd rest
      else
        match r.commits.find? (fun c => c.id == cid) with
        | none => restore_history r processed wd rest
        | some c =>
            match restore_single_commit_files r.objects wd c.files with
            | .error e => .error e
            | .ok wd' => restore_history r (cid :: processed) wd' rest

/-- `restore_branch_commits`: replay the branch's own history, then recurse
into the parent branch with its history truncated at the index of this
branch's `base_commit` (skipping the ancestor, with a warning, when the
fork point is not found in the parent's history — a null `base_commit`
also never indexes).  The Python recursion is unbounded over the
`parent_branch` chain; `fuel` bounds it here, and exhausting the fuel
(which on a `parent_branch` cycle the source would never do — it loops)
is reported as `.fuelOut`. -/
def restore_branch_commits (r : Repo) :
    Nat → Branch → List String → List (String × String) →
    Except VsxErr (List String × List (String × String))
  | 0, _, _, _ => .error .fuelOut
  | Nat.succ fuel, meta, processed, wd =>
      match restore_history r processed wd meta.commit_history with
      | .error e => .error e
      | .ok (processed', wd') =>
          match meta.parent_branch with
          | none => .ok (processed', wd')
          | some pname =>
              match alookup r.branches pname with
              | none => .ok (processed', wd')
              | some pmeta =>
                  match meta.base_commit with
                  | none => .ok (processed', wd')
                  | some bc =>
                      match pmeta.commit_history.findIdx? (fun c => c == bc) with
                      | none => .ok (processed', wd')
                      | some i =>
                          restore_branch_commits r fuel
                            { pmeta with commit_history := pmeta.commit_history.take (i + 1) }
                            processed' wd'

/-- `BranchManager.switch_branch`: fail when the branch does not exist,
fail when its head does not resolve to a commit, otherwise clear all
tracked files and rebuild the working directory from the branch lineage,
then move HEAD. -/
def switch_branch (fuel : Nat) (r : Repo) (branch_name : String) : Except VsxErr Repo :=
  match alookup r.branches branch_name with
  | none => .error .unknownBranch
  | some meta =>
      match resolveCommit r.commits meta.head with
      | none => .error .danglingHead
      | some _ =>
          match restore_branch_commits r fuel meta [] (clear_tracked_files r) with
          | .error e => .error e
          | .ok (_, wd') => .ok { r with workdir := wd', head_ref := branch_name }

/-- The inner `find_common_ancestor` of `Versionix.merge`: intersect the two
`commit_history` lists as sets; if empty return null, otherwise the common
id appearing latest in the target's order. -/
def find_common_ancestor (source_commits target_commits : List String) : Option String :=
  let common := source_commits.filter (fun c => target_commits.contains c)
  if common = [] then none
  else target_commits.reverse.find? (fun c => common.contains c)

/-- A per-path file state as built by `get_file_state_at_commit`:
`{operation, hash}` with `hash` null for delete entries. -/
structure FState where
  operation : String
  hash : Option String
deriving DecidableEq

/-- The inner `get_file_state_at_commit` of `Versionix.merge`: the manifest
of the resolved commit as a path-keyed dictionary (empty when the id does
not resolve, which includes a null id). -/
def get_file_state_at_commit (cs : List Commit) (cid : Option String) :
    List (String × FState) :=
  match resolveCommit cs cid with
  | none => []
  | some c =>
      c.files.foldl
        (fun m f => aset m f.path { operation := f.operation, hash := f.hash }) []

/-- `file.get('operation')` on an optional per-path state. -/
def opOf (s : Option FState) : Option String := s.map (fun f => f.operation)

/-- `file.get('hash')` on an optional per-path state. -/
def hOf (s : Option FState) : Option String := s.bind (fun f => f.hash)

/-- Python truthiness of `file.get('hash')` (null or empty string is
falsy). -/
def truthyHash (s : Option FState) : Bool :=
  match hOf s with
  | none => false
  | some h => h != ""

/-- Outcome of classifying one path during a merge. -/
inductive PathRes where
  | conflict (reason : String)
  | merged (e : FState)
  | skip
deriving DecidableEq

/-- The per-path classification of `Versionix.merge`: the two
delete-versus-modify conflicts, the diverged-edit conflict, then the
resolution chain preferring deletes, then the source's hash, then the
target's. -/
def classifyPath (a s t : Option FState) : PathRes :=
  if opOf s = some "delete" ∧ opOf t ≠ some "delete" ∧ hOf t ≠ hOf a then
    .conflict "deleted_in_source_modified_in_target"
  else if opOf t = some "delete" ∧ opOf s ≠ some "delete" ∧ hOf s ≠ hOf a then
    .conflict "deleted_in_target_modified_in_source"
  else if opOf s ≠ some "delete" ∧ opOf t ≠ some "delete" ∧ hOf s ≠ hOf t ∧
          hOf s ≠ hOf a ∧ hOf t ≠ hOf a then
    .conflict "modified_differently"
  else if opOf s = some "delete" then .merged { operation := "delete", hash := none }
  else if opOf t = some "delete" then .merged { operation := "delete", hash := none }
  else if truthyHash s then .merged { operation := "modify", hash := hOf s }
  else if truthyHash t then .merged { operation := "modify", hash := hOf t }
  else .skip

/-- The union of paths the merge loop iterates over (`set(...)` of the
three key lists). -/
def mergePaths (aM sM tM : List (String × FState)) : List String :=
  ((aM.map (fun p => p.1)) ++ (sM.map (fun p => p.1)) ++ (tM.map (fun p => p.1))).dedup

/-- One step of the merge classification loop, accumulating the
`conflicts` and `merged_files` dictionaries. -/
def mergeStep (aM sM tM : List (String × FState))
    (acc : List (String × String) × List (String × FState)) (p : String) :
    List (String × String) × List (String × FState) :=
  match classifyPath (alookup aM p) (alookup sM p) (alookup tM p) with
  | .conflict reason => (acc.1 ++ [(p, reason)], acc.2)
  | .merged e => (acc.1, acc.2 ++ [(p, e)])
  | .skip => acc

/-- The whole classification loop of `Versionix.merge`. -/
def classifyAll (aM sM tM : List (String × FState)) :
    List (String × String) × List (String × FState) :=
  (mergePaths aM sM tM).foldl (mergeStep aM sM tM) ([], [])

/-- `get_file_content` inside `_create_conflict_markers`: read the blob for
a truthy hash (missing blob raises `FileNotFoundError`), empty string
otherwise. -/
def get_file_content (objects : List (String × String)) (s : Option FState) :
    Except VsxErr String :=
  match hOf s with
  | none => .ok ""
  | some h =>
      if h = "" then .ok ""
      else
        match alookup objects h with
        | none => .error .fileNotFound
        | some content => .ok content

/-- The conflict-marker loop of `Versionix.merge`: for each conflicting
path write target content under the current marker, a separator, and
source content under the incoming marker; a read failure aborts the loop
(already-written markers stay in the working tree). -/
def write_conflict_markers (objects : List (String × String))
    (sM tM : List (String × FState)) :
    List String → List (String × String) → Option VsxErr × List (String × String)
  | [], wd => (none, wd)
  | p :: rest, wd =>
      match get_file_content objects (alookup sM p), get_file_content objects (alookup tM p) with
      | .ok sc, .ok tc =>
          let content :=
            "<<<<<<< HEAD (Current Branch)\n" ++ tc ++ "=======\n" ++ sc ++
              ">>>>>>> (Incoming Branch)\n"
          write_conflict_markers objects sM tM rest (aset wd p content)
      | .error e, _ => (some e, wd)
      | .ok _, .error e => (some e, wd)

/-- Outcome of `Versionix.merge`: a merge commit id, a conflict report
(the function returns `False` after writing the markers), or a raised
error. -/
inductive MergeResult where
  | success (commitId : String)
  | conflicts (m : List (String × String))
  | failure (e : VsxErr)
deriving DecidableEq

/-- `Versionix.merge`: three-way merge of `source_branch` into
`target_branch`.  Returns the outcome together with the resulting
repository (conflict markers are written into the working tree before a
conflict report, so the repository is returned in every case). -/
def merge (newId : String) (r : Repo) (source_branch target_branch : String) :
    MergeResult × Repo :=
  match alookup r.branches source_branch, alookup r.branches target_branch with
  | none, _ => (.failure .unknownBranch, r)
  | some _, none => (.failure .unknownBranch, r)
  | some sMeta, some tMeta =>
      let anc := find_common_ancestor sMeta.commit_history tMeta.commit_history
      let aM := get_file_state_at_commit r.commits anc
      let sM := get_file_state_at_commit r.commits sMeta.head
      let tM := get_file_state_at_commit r.commits tMeta.head
      let cm := classifyAll aM sM tM
      if cm.1 = [] then
        let msg := "Merge " ++ source_branch ++ " into " ++ target_branch
        let c : Commit :=
          { id := newId, message := msg
            files := cm.2.map (fun pe =>
              { path := pe.1, operation := pe.2.operation, hash := pe.2.hash })
            parent := .two tMeta.head sMeta.head }
        let newMeta : Branch :=
          { tMeta with head := some newId
                       commit_history := tMeta.commit_history ++ [newId] }
        (.success newId,
         { r with commits := r.commits ++ [c]
                  branches := aset r.branches target_branch newMeta })
      else
        let wm := write_conflict_markers r.objects sM tM (cm.1.map (fun p => p.1)) r.workdir
        match wm.1 with
        | some e => (.failure e, { r with workdir := wm.2 })
        | none => (.conflicts cm.1, { r with workdir := wm.2 })

/-- The three path sets reported by `Versionix.diff`. -/
structure DiffResult where
  only1 : Finset String
  only2 : Finset String
  modified : Finset String
deriving DecidableEq

/-- The `{f['path']: f['hash'] for f in commit['files']}` comprehension of
`Versionix.diff` (a manifest entry with no hash raises `KeyError`; later
entries for the same path overwrite earlier ones). -/
def filesDict (fs : List FileChange) : Except VsxErr (List (String × String)) :=
  fs.foldl
    (fun acc f =>
      acc.bind (fun d =>
        match f.hash with
        | none => .error .keyError
        | some h => .ok (aset d f.path h)))
    (.ok [])

/-- Key set of a path-to-hash dictionary. -/
def keysOf (d : List (String × String)) : Finset String :=
  (d.map (fun p => p.1)).toFinset

/-- The pure set computations of `Versionix.diff`: paths only in the first
manifest, paths only in the second, and common paths whose hashes
differ. -/
def diffCore (d1 d2 : List (String × String)) : DiffResult :=
  { only1 := keysOf d1 \ keysOf d2
    only2 := keysOf d2 \ keysOf d1
    modified := (keysOf d1 ∩ keysOf d2).filter (fun p => alookup d1 p ≠ alookup d2 p) }

/-- `Versionix.diff`: resolve both branches and their head commits, build
the two path-to-hash dictionaries, and report the three sets. -/
def diff (r : Repo) (branch1 branch2 : String) : Except VsxErr DiffResult :=
  match alookup r.branches branch1 with
  | none => .error .unknownBranch
  | some m1 =>
      match alookup r.branches branch2 with
      | none => .error .unknownBranch
      | some m2 =>
          match resolveCommit r.commits m1.head, resolveCommit r.commits m2.head with
          | some c1, some c2 =>
              (match filesDict c1.files, filesDict c2.files with
               | .ok d1, .ok d2 => .ok (diffCore d1 d2)
               | .error e, _ => .error e
               | .ok _, .error e => .error e)
          | _, _ => .error .noCommits

deriving instance DecidableEq for Except

/-- A stand-in injective content digest for concrete scenarios (the source
uses sha256 of the file bytes; the digest is an external input of `add`). -/
def tagHash (s : String) : String := "sha-" ++ s

/-- Ignore predicate that ignores nothing (no `.vsxignore` matches). -/
def noIgnore : String → Bool := fun _ => false

/-- The spec's own checkout scenario: init; write `a.txt` = "x"; stage;
commit `c1` on `main`; create `feature`; switch to `feature`; write
`a.txt` = "y"; stage as modify; commit `c2` on `feature`. -/
def demoRepo : Except VsxErr Repo := do
  let r1 := writeWorkFile initRepo "a.txt" "x"
  let r2 ← add tagHash noIgnore r1 "a.txt" "add"
  let r3 ← commit "c1" r2 "first"
  let r4 ← create_branch r3 "feature" none
  let r5 ← switch_branch 10 r4 "feature"
  let r6 := writeWorkFile r5 "a.txt" "y"
  let r7 ← add tagHash noIgnore r6 "a.txt" "modify"
  commit "c2" r7 "second"

/-- The scenario repository as a plain value. -/
def demoR : Repo :=
  match demoRepo with
  | .ok r => r
  | .error _ => initRepo

theorem alookup_cons {α : Type} (a : String) (b : α) (tl : List (String × α)) (k : String) :
    alookup ((a, b) :: tl) k = if a = k then some b else alookup tl k := by
  by_cases h : a = k <;> simp [alookup, List.find?_cons, h]

theorem alookup_aset_self {α : Type} (l : List (String × α)) (k : String) (v : α) :
    alookup (aset l k v) k = some v := by
  induction l with
  | nil => simp [aset, alookup_cons]
  | cons hd tl ih =>
      obtain ⟨k', v'⟩ := hd
      by_cases h : k' = k
      · simp [aset, h, alookup_cons]
      · simp [aset, h, alookup_cons, ih]

theorem alookup_aset_ne {α : Type} (l : List (String × α)) (k k'' : String) (v : α)
    (h : k'' ≠ k) : alookup (aset l k v) k'' = alookup l k'' := by
  have hne : ¬ k = k'' := fun hh => h hh.symm
  induction l with
  | nil => simp [aset, alookup_cons, alookup, hne]
  | cons hd tl ih =>
      obtain ⟨k', v'⟩ := hd
      by_cases hk : k' = k
      · simp [aset, hk, alookup_cons, hne]
      · simp [aset, hk, alookup_cons, ih]

theorem mem_aset {α : Type} (l : List (String × α)) (k : String) (v : α) (p : String × α)
    (hp : p ∈ aset l k v) : p = (k, v) ∨ p ∈ l := by
  induction l with
  | nil => simpa [aset] using hp
  | cons hd tl ih =>
      obtain ⟨k', v'⟩ := hd
      by_cases h : k' = k
      · simp [aset, h] at hp
        rcases hp with h1 | h1
        · left; simp [h1]
        · right; simp [h1]
      · simp [aset, h] at hp
        rcases hp with h1 | h1
        · right; simp [h1]
        · rcases ih h1 with h2 | h2
          · left; exact h2
          · right; simp [h2]

/-- The spec's branch-record invariant: `head` equals the last element of
`commit_history`, or `base_commit` when the history is empty. -/
def branchInv (b : Branch) : Prop :=
  b.head = match b.commit_history.getLast? with
           | some c => some c
           | none => b.base_commit

instance (b : Branch) : Decidable (branchInv b) := by
  unfold branchInv; infer_instance

/-- The branch-record invariant for every branch of the registry. -/
def RepoInv (r : Repo) : Prop := ∀ p ∈ r.branches, branchInv p.2

instance (r : Repo) : Decidable (RepoInv r) := by
  unfold RepoInv; infer_instance

theorem repoInv_aset (l : List (String × Branch)) (k : String) (v : Branch)
    (hl : ∀ p ∈ l, branchInv p.2) (hv : branchInv v) :
    ∀ p ∈ aset l k v, branchInv p.2 := by
  intro p hp
  rcases mem_aset l k v p hp with h | h
  · rw [h]; exact hv
  · exact hl p h

theorem branchInv_append (meta : Branch) (newId : String) :
    branchInv { meta with head := some newId
                          commit_history := meta.commit_history ++ [newId] } := by
  simp [branchInv, List.getLast?_concat]

theorem restore_single_no_dangling (objects : List (String × String))
    (wd : List (String × String)) (fs : List FileChange) :
    restore_single_commit_files objects wd fs ≠ .error .danglingHead := by
  induction fs generalizing wd with
  | nil => simp [restore_single_commit_files]
  | cons f rest ih =>
      cases hf : f.hash with
      | none => simp [restore_single_commit_files, hf]
      | some h =>
          cases ho : alookup objects h with
          | none => simp [restore_single_commit_files, hf, ho]
          | some content =>
              simp only [restore_single_commit_files, hf, ho]
              exact ih _

theorem restore_history_no_dangling (r : Repo) (processed : List String)
    (wd : List (String × String)) (hist : List String) :
    restore_history r processed wd hist ≠ .error .danglingHead := by
  induction hist generalizing processed wd with
  | nil => simp [restore_history]
  | cons cid rest ih =>
      by_cases hp : processed.contains cid
      · simp only [restore_history, hp, if_pos]
        exact ih _ _
      · simp only [restore_history, hp]
        cases hfind : r.commits.find? (fun c => c.id == cid) with
        | none => simp only [Bool.false_eq_true, if_false, hfind]; exact ih _ _
        | some c =>
            simp only [Bool.false_eq_true, if_false, hfind]
            cases hres : restore_single_commit_files r.objects wd c.files with
            | error e =>
                intro hE
                apply restore_single_no_dangling r.objects wd c.files
                simp only [hres] at hE ⊢
                simpa using hE
            | ok wd' => simp only [hres]; exact ih _ _

theorem restore_branch_no_dangling (r : Repo) (fuel : Nat) (meta : Branch)
    (processed : List String) (wd : List (String × String)) :
    restore_branch_commits r fuel meta processed wd ≠ .error .danglingHead := by
  induction fuel generalizing meta processed wd with
  | zero => simp [restore_branch_commits]
  | succ n ih =>
      simp only [restore_branch_commits]
      split
      · rename_i e heq
        intro hE
        simp only [Except.error.injEq] at hE
        rw [hE] at heq
        exact restore_history_no_dangling r processed wd meta.commit_history heq
      · split
        · simp
        · split
          · simp
          · split
            · simp
            · split
              · simp
              · exact ih _ _ _

theorem classifyPath_self (a s : Option FState) (reason : String) :
    classifyPath a s s ≠ .conflict reason := by
  unfold classifyPath
  split_ifs with h1 h2 h3 h4 <;>
    first
      | exact absurd h1.1 h1.2.1
      | exact absurd h2.1 h2.2.1
      | exact absurd rfl h2.2.2.1
      | exact absurd rfl h3.2.2.1
      | simp

theorem mergeStep_self_fst (aM sM : List (String × FState)) (ps : List String)
    (acc : List (String × String) × List (String × FState)) :
    (ps.foldl (mergeStep aM sM sM) acc).1 = acc.1 := by
  induction ps generalizing acc with
  | nil => rfl
  | cons p rest ih =>
      simp only [List.foldl_cons]
      rw [ih]
      unfold mergeStep
      cases hc : classifyPath (alookup aM p) (alookup sM p) (alookup sM p) with
      | conflict reason => exact absurd hc (classifyPath_self _ _ reason)
      | merged e => rfl
      | skip => rfl

theorem classifyAll_self_fst (aM sM : List (String × FState)) :
    (classifyAll aM sM sM).1 = [] := by
  unfold classifyAll
  exact mergeStep_self_fst aM sM _ ([], [])

/-- C6: `commit(message)` fails with `NothingToCommitError` whenever the
staging area is empty; the error return happens before any write, so no
commit is appended and no branch metadata changes (the repository value is
returned unchanged to the caller). -/
theorem commit_empty_stage_fails (newId : String) (r : Repo) (message : String)
    (h : r.stage = []) : commit newId r message = .error .nothingToCommit := by
  simp [commit, h]

/-- Witness for C6 at the freshly initialized repository. -/
theorem commit_empty_stage_fails_witness :
    initRepo.stage = [] ∧ commit "c0" initRepo "msg" = .error .nothingToCommit :=
  ⟨by decide, commit_empty_stage_fails "c0" initRepo "msg" (by decide)⟩

/-- C10: staging with an operation string outside add/modify/delete raises
`ValueError` before touching any repository state (the check is the first
statement of `add` after path joining; the error return leaves the
staging area, object store, commit log and branch metadata unchanged). -/
theorem add_invalid_operation_rejected (hashFn : String → String)
    (isIgnored : String → Bool) (r : Repo) (filepath operation : String)
    (h : operation ∉ (["add", "modify", "delete"] : List String)) :
    add hashFn isIgnored r filepath operation = .error .valueError := by
  simp only [add, if_pos h]

/-- Witness for C10 with the operation string "rename". -/
theorem add_invalid_operation_rejected_witness :
    "rename" ∉ (["add", "modify", "delete"] : List String) ∧
    add tagHash noIgnore initRepo "f.txt" "rename" = .error .valueError :=
  ⟨by decide, add_invalid_operation_rejected tagHash noIgnore initRepo "f.txt" "rename" (by decide)⟩

/-- C5 (amended): staging a delete fails with `NotTrackedError`, leaving
the staging area unchanged, for every path absent from the current branch
head commit's manifest — provided that head resolves to a commit; when it
does not (e.g. a branch with no commits), the delete is staged without any
tracked-file check. -/
theorem stage_delete_untracked_fails (hashFn : String → String)
    (isIgnored : String → Bool) (r : Repo) (filepath : String)
    (meta : Branch) (head_commit : Commit)
    (hb : alookup r.branches r.head_ref = some meta)
    (hh : resolveCommit r.commits meta.head = some head_commit)
    (hp : head_commit.files.any (fun f => f.path == filepath) = false) :
    add hashFn isIgnored r filepath "delete" = .error .notTracked := by
  simp [add, hb, hh, hp]

/-- Witness for C5's amended theorem: in the two-commit scenario
repository, staging a delete for a path absent from the feature head's
manifest is rejected. -/
theorem stage_delete_untracked_fails_witness :
    alookup demoR.branches demoR.head_ref =
      some { name := "feature", base_commit := some "c1", head := some "c2"
             commit_history := ["c2"], parent_branch := some "main" } ∧
    add tagHash noIgnore demoR "nope.txt" "delete" = .error .notTracked :=
  ⟨by decide,
   stage_delete_untracked_fails tagHash noIgnore demoR "nope.txt"
     { name := "feature", base_commit := some "c1", head := some "c2"
       commit_history := ["c2"], parent_branch := some "main" }
     { id := "c2", message := "second"
       files := [{ path := "a.txt", operation := "modify", hash := some "sha-y" }]
       parent := .one (some "c1") }
     (by decide) (by decide) (by decide)⟩

/-- Counterexample to C5 as stated: in a repository whose current branch
has no resolvable head commit (fresh init), the path "b.txt" was never
committed, yet staging its delete succeeds and changes the staging area
instead of failing with `NotTrackedError`. -/
theorem stage_delete_untracked_counterexample :
    add tagHash noIgnore initRepo "b.txt" "delete" =
      .ok { initRepo with
              stage := [{ path := "b.txt", operation := "delete", hash := none }] } := by
  decide

/-- C4 (amended): on an existing branch, `switch_branch` fails with the
dangling-head error exactly when the branch's head does not resolve to a
commit in the commit graph; a branch with no commits and a null base has
an unresolvable (null) head and therefore also fails — it is not treated
as a valid empty state. -/
theorem switch_dangling_iff (fuel : Nat) (r : Repo) (branch_name : String)
    (meta : Branch) (hb : alookup r.branches branch_name = some meta) :
    switch_branch fuel r branch_name = .error .danglingHead ↔
      resolveCommit r.commits meta.head = none := by
  cases hr : resolveCommit r.commits meta.head with
  | none => simp [switch_branch, hb, hr]
  | some c =>
      simp only [switch_branch, hb, hr]
      constructor
      · intro hE
        exfalso
        revert hE
        cases hres : restore_branch_commits r fuel meta [] (clear_tracked_files r) with
        | error e =>
            intro hE
            simp only [Except.error.injEq] at hE
            rw [hE] at hres
            exact restore_branch_no_dangling r fuel meta [] (clear_tracked_files r) hres
        | ok pw => simp
      · intro hN
        exact absurd hN (by simp)

/-- Witness for C4's amended theorem: the fresh repository's `main` branch
(null head) errors on checkout. -/
theorem switch_dangling_iff_witness :
    alookup initRepo.branches "main" =
      some { name := "main", base_commit := none, head := none
             commit_history := [], parent_branch := none } ∧
    switch_branch 5 initRepo "main" = .error .danglingHead :=
  ⟨by decide,
   (switch_dangling_iff 5 initRepo "main"
     { name := "main", base_commit := none, head := none
       commit_history := [], parent_branch := none } (by decide)).mpr (by decide)⟩

/-- Counterexample to C4 as stated: a branch with no commits and a null
base (fresh `main`) is claimed to be a valid empty state whose checkout
succeeds, but `switch_branch` raises the dangling-head error on it. -/
theorem switch_empty_branch_errors :
    initRepo.commits = [] ∧
    alookup initRepo.branches "main" =
      some { name := "main", base_commit := none, head := none
             commit_history := [], parent_branch := none } ∧
    switch_branch 10 initRepo "main" = .error .danglingHead := by
  decide

/-- C9: for every existing branch `b`, `merge(b, b)` never reports a
conflict and always appends a merge commit whose two parents both equal
`b`'s head (even for an empty history and null head), extending `b`'s
`commit_history` by exactly one entry (the freshly generated id). -/
theorem merge_self_no_conflict (newId : String) (r : Repo) (b : String)
    (meta : Branch) (hb : alookup r.branches b = some meta) :
    (merge newId r b b).1 = .success newId ∧
    (∃ fs, (merge newId r b b).2.commits =
      r.commits ++ [{ id := newId, message := "Merge " ++ b ++ " into " ++ b
                      files := fs, parent := .two meta.head meta.head }]) ∧
    alookup (merge newId r b b).2.branches b =
      some { meta with head := some newId
                       commit_history := meta.commit_history ++ [newId] } := by
  have hc :
      (classifyAll
        (get_file_state_at_commit r.commits
          (find_common_ancestor meta.commit_history meta.commit_history))
        (get_file_state_at_commit r.commits meta.head)
        (get_file_state_at_commit r.commits meta.head)).1 = [] :=
    classifyAll_self_fst _ _
  simp only [merge, hb]
  rw [if_pos hc]
  refine ⟨rfl, ⟨_, rfl⟩, ?_⟩
  exact alookup_aset_self _ _ _

/-- Witness for C9 at the freshly initialized repository (empty history,
null head). -/
theorem merge_self_no_conflict_witness :
    (merge "m9" initRepo "main" "main").1 = .success "m9" ∧
    alookup (merge "m9" initRepo "main" "main").2.branches "main" =
      some { name := "main", base_commit := none, head := some "m9"
             commit_history := ["m9"], parent_branch := none } := by
  have h := merge_self_no_conflict "m9" initRepo "main"
    { name := "main", base_commit := none, head := none
      commit_history := [], parent_branch := none } (by decide)
  exact ⟨h.1, h.2.2⟩

/-- C3 (amended): for every pair of existing branches, if `merge`
classifies any path as conflicting then no commit is appended and no
branch metadata changes; on a conflict-free merge only the target
branch's registry record is mutated, so every branch other than the
target — in particular the source whenever source ≠ target — is
unchanged.  (When source = target, the one mutated record is both.) -/
theorem merge_atomicity_frame (newId s t : String) (r : Repo)
    (sMeta tMeta : Branch)
    (hs : alookup r.branches s = some sMeta)
    (ht : alookup r.branches t = some tMeta) :
    (∀ m, (merge newId r s t).1 = .conflicts m →
      (merge newId r s t).2.commits = r.commits ∧
      (merge newId r s t).2.branches = r.branches) ∧
    (∀ cid, (merge newId r s t).1 = .success cid →
      ∀ n, n ≠ t → alookup (merge newId r s t).2.branches n = alookup r.branches n) := by
  simp only [merge, hs, ht]
  split
  · constructor
    · intro m hm
      exact absurd hm (by simp)
    · intro cid hcid n hn
      exact alookup_aset_ne _ _ _ _ hn
  · split
    · constructor
      · intro m hm
        exact absurd hm (by simp)
      · intro cid hcid
        exact absurd hcid (by simp)
    · constructor
      · intro m hm
        exact ⟨rfl, rfl⟩
      · intro cid hcid
        exact absurd hcid (by simp)

/-- Witness for C3's amended theorem: the conflicting merge of `feature`
into `main` in the scenario repository appends no commit and leaves all
branch metadata unchanged. -/
theorem merge_atomicity_frame_witness :
    (merge "m1" demoR "feature" "main").2.commits = demoR.commits ∧
    (merge "m1" demoR "feature" "main").2.branches = demoR.branches :=
  (merge_atomicity_frame "m1" "feature" "main" demoR
    { name := "feature", base_commit := some "c1", head := some "c2"
      commit_history := ["c2"], parent_branch := some "main" }
    { name := "main", base_commit := none, head := some "c1"
      commit_history := ["c1"], parent_branch := none }
    (by decide) (by decide)).1
    [("a.txt", "modified_differently")] (by decide)

/-- Counterexample to C3 as stated ("the source branch's metadata is
unchanged in every case"): a conflict-free self-merge succeeds and
mutates the source branch's record, because the source is the target. -/
theorem merge_mutates_source_when_self :
    (merge "m1" initRepo "main" "main").1 = .success "m1" ∧
    alookup (merge "m1" initRepo "main" "main").2.branches "main" ≠
      alookup initRepo.branches "main" := by
  decide

/-- C7: the branch-record invariant (`head` = last of `commit_history`
when non-empty, else `base_commit`) holds for the initialized repository
and is preserved by `create_branch`, `commit`, and `merge` (both its
conflict and success outcomes). -/
theorem branch_invariant_preserved :
    RepoInv initRepo ∧
    (∀ r name base r', RepoInv r → create_branch r name base = .ok r' → RepoInv r') ∧
    (∀ newId r message r', RepoInv r → commit newId r message = .ok r' → RepoInv r') ∧
    (∀ newId r s t, RepoInv r → RepoInv (merge newId r s t).2) := by
  refine ⟨by decide, ?_, ?_, ?_⟩
  · intro r name base r' hInv h
    simp only [create_branch] at h
    cases hb : alookup r.branches (base.getD r.head_ref) with
    | none => rw [hb] at h; exact absurd h (by simp)
    | some baseMeta =>
        rw [hb] at h
        simp only [Except.ok.injEq] at h
        rw [← h]
        intro p hp
        refine repoInv_aset r.branches name _ hInv ?_ p hp
        simp [branchInv]
  · intro newId r message r' hInv h
    simp only [commit] at h
    by_cases hs : r.stage = []
    · rw [if_pos hs] at h; exact absurd h (by simp)
    · rw [if_neg hs] at h
      cases hb : alookup r.branches r.head_ref with
      | none => rw [hb] at h; exact absurd h (by simp)
      | some meta =>
          rw [hb] at h
          cases hm : mkCommitFiles r.stage with
          | error e => rw [hm] at h; exact absurd h (by simp)
          | ok cfiles =>
              rw [hm] at h
              simp only [Except.ok.injEq] at h
              rw [← h]
              intro p hp
              exact repoInv_aset r.branches r.head_ref _ hInv
                (branchInv_append meta newId) p hp
  · intro newId r s t hInv
    cases hsb : alookup r.branches s with
    | none => simp only [merge, hsb]; exact hInv
    | some sMeta =>
        cases htb : alookup r.branches t with
        | none => simp only [merge, hsb, htb]; exact hInv
        | some tMeta =>
            simp only [merge, hsb, htb]
            split
            · intro p hp
              exact repoInv_aset r.branches t _ hInv
                (branchInv_append tMeta newId) p hp
            · split
              · exact hInv
              · exact hInv

/-- Witness for C7: the invariant holds after a concrete merge on the
initialized repository. -/
theorem branch_invariant_preserved_witness :
    RepoInv (merge "m5" initRepo "main" "main").2 :=
  branch_invariant_preserved.2.2.2 "m5" initRepo "main" "main" (by decide)

/-- C8: for two branches whose heads resolve to commits (and whose
manifests carry hashes, so the dictionary comprehensions succeed), `diff`
reports the two "only in" path sets with roles exchanged under argument
swap, and exactly the same modified-path set. -/
theorem diff_symmetric (r : Repo) (b1 b2 : String) (m1 m2 : Branch)
    (c1 c2 : Commit) (d1 d2 : List (String × String))
    (hb1 : alookup r.branches b1 = some m1)
    (hb2 : alookup r.branches b2 = some m2)
    (hc1 : resolveCommit r.commits m1.head = some c1)
    (hc2 : resolveCommit r.commits m2.head = some c2)
    (hd1 : filesDict c1.files = .ok d1)
    (hd2 : filesDict c2.files = .ok d2) :
    diff r b1 b2 = .ok (diffCore d1 d2) ∧
    diff r b2 b1 = .ok (diffCore d2 d1) ∧
    (diffCore d1 d2).only1 = (diffCore d2 d1).only2 ∧
    (diffCore d1 d2).only2 = (diffCore d2 d1).only1 ∧
    (diffCore d1 d2).modified = (diffCore d2 d1).modified := by
  refine ⟨?_, ?_, rfl, rfl, ?_⟩
  · simp [diff, hb1, hb2, hc1, hc2, hd1, hd2]
  · simp [diff, hb1, hb2, hc1, hc2, hd1, hd2]
  · simp only [diffCore]
    ext p
    simp only [Finset.mem_filter, Finset.mem_inter]
    constructor
    · rintro ⟨⟨hp1, hp2⟩, hne⟩
      exact ⟨⟨hp2, hp1⟩, fun hh => hne hh.symm⟩
    · rintro ⟨⟨hp2, hp1⟩, hne⟩
      exact ⟨⟨hp1, hp2⟩, fun hh => hne hh.symm⟩

/-- A concrete repository with two branches whose heads resolve to
distinct commits, for exercising `diff`. -/
def diffDemoRepo : Repo :=
  { head_ref := "b1"
    commits :=
      [{ id := "c1", message := "one"
         files := [{ path := "a.txt", operation := "add", hash := some "h1" },
                   { path := "b.txt", operation := "add", hash := some "h2" }]
         parent := .one none },
       { id := "c2", message := "two"
         files := [{ path := "a.txt", operation := "add", hash := some "h3" },
                   { path := "c.txt", operation := "add", hash := some "h4" }]
         parent := .one none }]
    branches :=
      [("b1", { name := "b1", base_commit := none, head := some "c1"
                commit_history := ["c1"], parent_branch := none }),
       ("b2", { name := "b2", base_commit := none, head := some "c2"
                commit_history := ["c2"], parent_branch := none })]
    stage := []
    objects := []
    workdir := [] }

/-- Witness for C8 on the concrete two-branch repository. -/
theorem diff_symmetric_witness :
    diff diffDemoRepo "b1" "b2" =
      .ok (diffCore [("a.txt", "h1"), ("b.txt", "h2")] [("a.txt", "h3"), ("c.txt", "h4")]) ∧
    (diffCore [("a.txt", "h1"), ("b.txt", "h2")] [("a.txt", "h3"), ("c.txt", "h4")]).modified =
      (diffCore [("a.txt", "h3"), ("c.txt", "h4")] [("a.txt", "h1"), ("b.txt", "h2")]).modified := by
  have h := diff_symmetric diffDemoRepo "b1" "b2"
    { name := "b1", base_commit := none, head := some "c1"
      commit_history := ["c1"], parent_branch := none }
    { name := "b2", base_commit := none, head := some "c2"
      commit_history := ["c2"], parent_branch := none }
    { id := "c1", message := "one"
      files := [{ path := "a.txt", operation := "add", hash := some "h1" },
                { path := "b.txt", operation := "add", hash := some "h2" }]
      parent := .one none }
    { id := "c2", message := "two"
      files := [{ path := "a.txt", operation := "add", hash := some "h3" },
                { path := "c.txt", operation := "add", hash := some "h4" }]
      parent := .one none }
    [("a.txt", "h1"), ("b.txt", "h2")] [("a.txt", "h3"), ("c.txt", "h4")]
    (by decide) (by decide) (by decide) (by decide) (by decide) (by decide)
  exact ⟨h.1, h.2.2.2.2⟩

/-- C1 refuted on the code: in the spec's own scenario, `a.txt` = "y" is
committed as `c2` on `feature` (its blob is stored and `feature`'s head is
`c2`), yet checking `feature` out materializes `a.txt` = "x" — the
bounded ancestor replay runs *after* the branch's own commits and its
pre-fork parent commit overwrites the child's committed version. -/
theorem checkout_overwrites_child_commit :
    demoRepo.map (fun r => (alookup r.branches "feature").map (fun m => m.head)) =
      .ok (some (some "c2")) ∧
    demoRepo.map (fun r => (r.commits.find? (fun c => c.id == "c2")).map (fun c => c.files)) =
      .ok (some [{ path := "a.txt", operation := "modify", hash := some "sha-y" }]) ∧
    demoRepo.map (fun r => alookup r.objects "sha-y") = .ok (some "y") ∧
    (demoRepo.bind (fun r => switch_branch 10 r "feature")).map
        (fun r => alookup r.workdir "a.txt") = .ok (some "x") := by
  decide

/-- C2 refuted on the code: `feature` was created from `main` and only
`feature` edited `a.txt` since the fork, yet merging `feature` into
`main` reports a `modified_differently` conflict and appends no commit —
`find_common_ancestor` intersects the two `commit_history` lists, which
never share ids between a parent and a child branch, so the ancestor
state is empty and the one-sided edit is classified as divergent. -/
theorem merge_child_into_parent_conflicts :
    demoRepo.map (fun r => (merge "m1" r "feature" "main").1) =
      .ok (.conflicts [("a.txt", "modified_differently")]) ∧
    demoRepo.map (fun r => (merge "m1" r "feature" "main").2.commits) =
      demoRepo.map (fun r => r.commits) := by
  decide
